import Mathlib

/-!
Verification development for the content-validation and build-optimization
utilities of the static portfolio site repository.

The pure logic of `src/utils/buildOptimization.ts`, `src/utils/dataLoader.ts`
and the content-validator module is embedded shallowly.  File-system access,
the YAML parser (js-yaml) and the schema library (zod) are external
collaborators of the embedded code; they are modelled as explicit
function-valued parameters (an abstract file-system model / parse oracle),
while every line of the repository's own logic is translated directly.
JavaScript numbers are modelled as `ℚ` with explicit handling of the
division-by-zero (NaN) cases, and JavaScript string scans (regular
expressions with their backtracking behaviour) are implemented as
executable recursive functions on `List Char`.
-/

namespace Dabozai

/-! ## Character classes used by the JavaScript regular expressions -/

/-- JavaScript regular-expression class designator for whitespace: the set
matched by a backslash-s atom (space, tab, newline, carriage return,
vertical tab, form feed and the Unicode space characters). -/
def isJsSpace (c : Char) : Bool :=
  c = ' ' || c = '\t' || c = '\n' || c = '\r' || c = '\x0b' || c = '\x0c' ||
  c = '\u00A0' || c = '\u1680' || ('\u2000' ≤ c && c ≤ '\u200A') ||
  c = '\u2028' || c = '\u2029' || c = '\u202F' || c = '\u205F' ||
  c = '\u3000' || c = '\uFEFF'

/-- Case-insensitive hexadecimal digit, the class `[a-f0-9]` under the `i`
flag used in `hasContentHash`. -/
def isHexDigit (c : Char) : Bool :=
  ('0' ≤ c && c ≤ '9') || ('a' ≤ c && c ≤ 'f') || ('A' ≤ c && c ≤ 'F')

/-- The separator class `[._-]` of the `hasContentHash` pattern. -/
def isSep (c : Char) : Bool :=
  c = '.' || c = '_' || c = '-'

/-- ASCII lower-casing of a single character (the behaviour of JavaScript
`toLowerCase` on the ASCII file-name extensions the code classifies). -/
def lowerChar (c : Char) : Char :=
  if 'A' ≤ c && c ≤ 'Z' then Char.ofNat (c.toNat + 32) else c

/-! ## Path helpers (model of the Node `path` module as used by the code) -/

/-- Characters of the last path segment: model of Node `path.basename`. -/
def basenameChars (l : List Char) : List Char :=
  (l.reverse.takeWhile (fun c => c ≠ '/')).reverse

/-- Model of Node `path.basename` on strings. -/
def basenameStr (p : String) : String :=
  String.mk (basenameChars p.data)

/-- Characters of the extension of the last path segment: model of Node
`path.extname`.  A name without a dot, or whose only dot is its first
character (dot-files such as `.gitkeep`), has the empty extension. -/
def extnameChars (l : List Char) : List Char :=
  let b := basenameChars l
  let r := b.reverse
  let t := r.takeWhile (fun c => c ≠ '.')
  if t.length = r.length then []
  else if t.length + 1 = r.length then []
  else '.' :: t.reverse

/-- Model of Node `path.extname` on strings. -/
def extname (p : String) : String :=
  String.mk (extnameChars p.data)

/-- Model of Node `path.join` for already-normalized relative arguments, as
the code uses it: `join b r` concatenates with a single separator. -/
def joinPath (b r : String) : String :=
  if b = "" then r else b ++ "/" ++ r

/-- JavaScript `startsWith` on strings. -/
def strStartsWith (s p : String) : Bool :=
  p.data.isPrefixOf s.data

/-! ## buildOptimization.ts: asset classification -/

/-- The `AssetInfo['type']` union of `buildOptimization.ts`. -/
inductive AssetType where
  | html
  | css
  | js
  | image
  | other
deriving DecidableEq, Repr

/-- `getAssetType` from `buildOptimization.ts`: classify a file path by the
lower-cased extension of its last segment. -/
def getAssetType (filePath : String) : AssetType :=
  let ext := String.mk ((extnameChars filePath.data).map lowerChar)
  if ext = ".html" || ext = ".htm" then .html
  else if ext = ".css" then .css
  else if ext = ".js" || ext = ".mjs" then .js
  else if [".jpg", ".jpeg", ".png", ".gif", ".webp", ".svg", ".avif", ".ico"].contains ext then .image
  else .other

/-! ## buildOptimization.ts: content-hash detection

`hasContentHash` tests the regular expression `[._-][a-f0-9]{8,}\.` (with
the `i` flag) against the file name.  The scan below implements that test:
at every position the pattern may start with a separator, after which a
greedy run of hexadecimal digits must reach length at least 8 and then be
followed by a literal dot.  Because a dot is not a hexadecimal digit the
greedy run is deterministic. -/

/-- After a separator: consume hexadecimal digits, succeeding as soon as a
dot is reached with at least 8 digits consumed (`n` counts digits consumed
so far). -/
def hexRunThenDot : Nat → List Char → Bool
  | _, [] => false
  | n, c :: rest =>
    if 8 ≤ n ∧ c = '.' then true
    else if isHexDigit c then hexRunThenDot (n + 1) rest
    else false

/-- Try the hash pattern at every position of the file name. -/
def hashScan : List Char → Bool
  | [] => false
  | c :: rest => (isSep c && hexRunThenDot 0 rest) || hashScan rest

/-- `hasContentHash` from `buildOptimization.ts`. -/
def hasContentHash (filename : String) : Bool :=
  hashScan filename.data

/-- The content-hash condition as worded by the specification: a segment of
at least 8 hexadecimal digits, introduced by a separator, sitting
immediately before the final extension (the dot that ends the pattern is
the dot of the final extension). -/
def hasContentHashSpec (filename : String) : Bool :=
  let r := filename.data.reverse
  let e := r.takeWhile (fun c => c ≠ '.')
  if e.length = r.length then false
  else
    let base := r.drop (e.length + 1)
    let run := base.takeWhile isHexDigit
    8 ≤ run.length &&
      (match base.drop run.length with
       | s :: _ => isSep s
       | [] => false)

/-! ## buildOptimization.ts: minification heuristics -/

/-- JavaScript comparison `num / den < t` for non-negative integer counts:
when the denominator is zero the quotient is NaN (for a zero numerator) or
positive infinity, and in both cases the strict comparison with the
threshold yields false. -/
def divLtNaN (num den : Nat) (t : ℚ) : Bool :=
  if den = 0 then false else decide ((num : ℚ) / (den : ℚ) < t)

/-- `isHtmlMinified` from `buildOptimization.ts`: content under 200
characters is trivially minified, otherwise the newline density must be
below 0.02. -/
def isHtmlMinified (content : String) : Bool :=
  let newlineCount := content.data.countP (fun c => c = '\n')
  let contentLength := content.data.length
  if contentLength < 200 then true
  else divLtNaN newlineCount contentLength (2 / 100)

/-- Count of matches of the global pattern for runs of two or more
whitespace characters: the number of maximal whitespace runs of length at
least 2 (`runLen` is the length of the current run). -/
def cssRunCount : Nat → List Char → Nat
  | runLen, [] => if 2 ≤ runLen then 1 else 0
  | runLen, c :: rest =>
    if isJsSpace c then cssRunCount (runLen + 1) rest
    else (if 2 ≤ runLen then 1 else 0) + cssRunCount 0 rest

/-- `isCssMinified` from `buildOptimization.ts`: the count of whitespace
runs divided by the content length must be below 0.001.  There is no size
guard, so the empty string divides zero by zero. -/
def isCssMinified (content : String) : Bool :=
  divLtNaN (cssRunCount 0 content.data) content.data.length (1 / 1000)

/-- Count of matches of the global alternation of comment markers (open
block, close block, line comment), scanning left to right and consuming
two characters per match. -/
def countJsCommentMarks : List Char → Nat
  | '/' :: '*' :: rest => countJsCommentMarks rest + 1
  | '*' :: '/' :: rest => countJsCommentMarks rest + 1
  | '/' :: '/' :: rest => countJsCommentMarks rest + 1
  | _ :: rest => countJsCommentMarks rest
  | [] => 0

/-- `isJsMinified` from `buildOptimization.ts`: content under 100
characters is trivially minified, otherwise the combined newline and
comment-marker density must be below 0.005. -/
def isJsMinified (content : String) : Bool :=
  let newlineCount := content.data.countP (fun c => c = '\n')
  let commentCount := countJsCommentMarks content.data
  let contentLength := content.data.length
  if contentLength < 100 then true
  else divLtNaN (newlineCount + commentCount) contentLength (5 / 1000)

/-! ## buildOptimization.ts: report generation

The directory walk of `collectFiles` is modelled by its observable input:
the ordered list of regular files the recursive traversal visits, each
with its path relative to the walked root, its entry name (the base name
the walk sees), its size in bytes and its text content. -/

/-- One regular file visited by the `collectFiles` directory walk. -/
structure FileEntry where
  relPath : String
  name : String
  size : Nat
  content : String
deriving Repr, DecidableEq

/-- The `AssetInfo` record of `buildOptimization.ts`. -/
structure AssetInfo where
  path : String
  size : Nat
  type : AssetType
  hasHash : Bool
deriving Repr, DecidableEq

/-- `collectFiles` from `buildOptimization.ts`: each visited regular file
yields one `AssetInfo`, classified and hash-checked on its entry name. -/
def collectFiles (fs : List FileEntry) : List AssetInfo :=
  fs.map (fun f => ⟨f.relPath, f.size, getAssetType f.name, hasContentHash f.name⟩)

/-- Model of `readFileSync` on a path relative to the walked root: the
content of the first walked file with that relative path (paths handed to
it by the report generator always come from the walk itself). -/
def readBuild (fs : List FileEntry) (p : String) : String :=
  ((fs.find? (fun f => f.relPath == p)).map FileEntry.content).getD ""

/-- JavaScript `Math.round` on a rational value: round half toward
positive infinity. -/
def jsRound (q : ℚ) : ℤ :=
  Int.floor (q + 1 / 2)

/-- The `optimizationChecks` record of a `BuildReport`. -/
structure OptimizationChecks where
  allAssetsHashed : Bool
  htmlMinified : Bool
  cssMinified : Bool
  jsMinified : Bool
deriving Repr, DecidableEq

/-- The `summary` record of a `BuildReport`. -/
structure BuildSummary where
  totalFiles : Nat
  totalSize : Nat
  htmlFiles : Nat
  cssFiles : Nat
  jsFiles : Nat
  imageFiles : Nat
  otherFiles : Nat
  hashedAssets : Nat
  averageHtmlSize : ℤ
  averageCssSize : ℤ
  averageJsSize : ℤ
deriving Repr, DecidableEq

/-- The `BuildReport` record of `buildOptimization.ts`.  The wall-clock
`timestamp` and the echoed `outputDir` argument are omitted. -/
structure BuildReport where
  assets : List AssetInfo
  summary : BuildSummary
  optimizationChecks : OptimizationChecks
deriving Repr, DecidableEq

/-- `generateBuildReport` from `buildOptimization.ts`.  The minification
loops sample up to the first 3 files of each type and break on the first
failing sample; the resulting flag equals the conjunction of the checks on
those samples. -/
def generateBuildReport (fs : List FileEntry) : BuildReport :=
  let assets := collectFiles fs
  let htmlFiles := assets.filter (fun a => a.type == AssetType.html)
  let cssFiles := assets.filter (fun a => a.type == AssetType.css)
  let jsFiles := assets.filter (fun a => a.type == AssetType.js)
  let imageFiles := assets.filter (fun a => a.type == AssetType.image)
  let otherFiles := assets.filter (fun a => a.type == AssetType.other)
  let htmlMinified := (htmlFiles.take 3).all (fun a => isHtmlMinified (readBuild fs a.path))
  let cssMinified := (cssFiles.take 3).all (fun a => isCssMinified (readBuild fs a.path))
  let jsMinified := (jsFiles.take 3).all (fun a => isJsMinified (readBuild fs a.path))
  let assetsInAssetsFolder := assets.filter (fun a =>
    strStartsWith a.path "assets/" && (a.type == AssetType.css || a.type == AssetType.js))
  let allAssetsHashed := assetsInAssetsFolder.length == 0 ||
    assetsInAssetsFolder.all (fun a => a.hasHash)
  let totalSize := (assets.map (fun a => a.size)).sum
  let avgHtmlSize : ℚ := if 0 < htmlFiles.length then
    ((htmlFiles.map (fun a => a.size)).sum : ℚ) / (htmlFiles.length : ℚ) else 0
  let avgCssSize : ℚ := if 0 < cssFiles.length then
    ((cssFiles.map (fun a => a.size)).sum : ℚ) / (cssFiles.length : ℚ) else 0
  let avgJsSize : ℚ := if 0 < jsFiles.length then
    ((jsFiles.map (fun a => a.size)).sum : ℚ) / (jsFiles.length : ℚ) else 0
  { assets := assets
    summary :=
      { totalFiles := assets.length
        totalSize := totalSize
        htmlFiles := htmlFiles.length
        cssFiles := cssFiles.length
        jsFiles := jsFiles.length
        imageFiles := imageFiles.length
        otherFiles := otherFiles.length
        hashedAssets := (assets.filter (fun a => a.hasHash)).length
        averageHtmlSize := jsRound avgHtmlSize
        averageCssSize := jsRound avgCssSize
        averageJsSize := jsRound avgJsSize }
    optimizationChecks :=
      { allAssetsHashed := allAssetsHashed
        htmlMinified := htmlMinified
        cssMinified := cssMinified
        jsMinified := jsMinified } }

/-- The result record of `validateBuildOptimization`. -/
structure BuildValidation where
  valid : Bool
  report : BuildReport
  errors : List String
deriving Repr, DecidableEq

/-- `validateBuildOptimization` from `buildOptimization.ts`: one
human-readable error per failed optimization check. -/
def validateBuildOptimization (fs : List FileEntry) : BuildValidation :=
  let report := generateBuildReport fs
  let errors :=
    (if report.optimizationChecks.allAssetsHashed then []
     else ["Not all CSS/JS assets in the assets folder have content hashes"]) ++
    (if report.optimizationChecks.htmlMinified then []
     else ["HTML files do not appear to be minified"]) ++
    (if report.optimizationChecks.cssMinified then []
     else ["CSS files do not appear to be minified"]) ++
    (if report.optimizationChecks.jsMinified then []
     else ["JavaScript files do not appear to be minified"])
  { valid := errors.length == 0
    report := report
    errors := errors }

/-! ## dataLoader.ts -/

/-- Outcome of a zod `safeParse` call: either the typed parsed data or a
failure carrying the issue list (field path and message per issue) and the
aggregated error message exposed as `error.message`. -/
inductive SafeParseResult (α : Type) where
  | ok (data : α)
  | fail (issues : List (String × String)) (message : String)
deriving Repr

/-- Model of a zod schema: the `safeParse` function. -/
structure Schema (α : Type) where
  safeParse : α → SafeParseResult α

/-- Abstract model of the collaborators of `loadYamlFile`: path
resolution, file existence, file reading and the YAML parser, which
either returns a value or throws with a message. -/
structure LoaderModel (α : Type) where
  resolve : String → String
  fexists : String → Bool
  readFile : String → String
  parseYaml : String → Except String α

/-- The `DataLoadResult` record of `dataLoader.ts`. -/
structure DataLoadResult (α : Type) where
  success : Bool
  data : Option α
  error : Option String
deriving Repr

/-- `loadYamlFile` from `dataLoader.ts`: resolve the path, check
existence, read and parse the file (a thrown parse error is caught and
reported), validate against the schema, and return a result record in
every case. -/
def loadYamlFile {α : Type} (m : LoaderModel α) (filePath : String) (schema : Schema α) :
    DataLoadResult α :=
  let absolutePath := m.resolve filePath
  if m.fexists absolutePath = false then
    ⟨false, none, some ("File not found: " ++ filePath)⟩
  else
    match m.parseYaml (m.readFile absolutePath) with
    | Except.error msg => ⟨false, none, some ("Failed to load file: " ++ msg)⟩
    | Except.ok parsedYaml =>
      match schema.safeParse parsedYaml with
      | SafeParseResult.fail _ msg => ⟨false, none, some ("Schema validation failed: " ++ msg)⟩
      | SafeParseResult.ok d => ⟨true, some d, none⟩

/-- The testimonial fields used by `calculateAverageRating`. -/
structure Testimonial where
  courseSlug : String
  rating : ℚ
deriving Repr, DecidableEq

/-- `calculateAverageRating` from `dataLoader.ts`: mean rating over the
testimonials of the course, rounded to one decimal; `none` when no
testimonial matches. -/
def calculateAverageRating (testimonials : List Testimonial) (courseSlug : String) : Option ℚ :=
  let courseTestimonials := testimonials.filter (fun t => t.courseSlug == courseSlug)
  if courseTestimonials.length = 0 then none
  else
    let sum := (courseTestimonials.map Testimonial.rating).sum
    some ((jsRound (sum / (courseTestimonials.length : ℚ) * 10) : ℚ) / 10)

/-! ## Content validator

The content-validator module (validateYamlFile, validateMarkdownFile,
extractFrontmatter, validateAllContent, generateContentManifest,
detectContentChanges).  Its file-system and YAML collaborators are again
an abstract model; JavaScript truthiness of a parsed YAML value is part of
the model (`falsy`). -/

/-- A directory entry as seen by `readdirSync` with file types. -/
structure DirEntry where
  name : String
  isFile : Bool
deriving Repr, DecidableEq

/-- Abstract model of the content-validator collaborators. -/
structure CVModel (α : Type) where
  fexists : String → Bool
  readFile : String → String
  parseYaml : String → Except String α
  falsy : α → Bool
  readdir : String → List DirEntry

/-- The `ValidationResult` record of the content validator. -/
structure ValidationResult where
  valid : Bool
  file : String
  errors : Option (List String)
deriving Repr, DecidableEq

/-- `formatZodErrors` from the content validator: each issue becomes
`path: message`, or the bare message when the path is empty. -/
def formatZodErrors (issues : List (String × String)) : List String :=
  issues.map (fun i => if i.1 = "" then i.2 else i.1 ++ ": " ++ i.2)

/-- `validateYamlFile` from the content validator. -/
def validateYamlFile {α : Type} (m : CVModel α) (filePath : String) (schema : Schema α) :
    ValidationResult :=
  if m.fexists filePath = false then
    ⟨false, filePath, some ["File not found: " ++ filePath]⟩
  else
    match m.parseYaml (m.readFile filePath) with
    | Except.error msg => ⟨false, filePath, some ["Parse error: " ++ msg]⟩
    | Except.ok parsed =>
      match schema.safeParse parsed with
      | SafeParseResult.ok _ => ⟨true, filePath, none⟩
      | SafeParseResult.fail issues _ => ⟨false, filePath, some (formatZodErrors issues)⟩

/-- First position of a newline immediately followed by three dashes (the
tail part of the frontmatter pattern). -/
def findNewlineDashes : List Char → Option Nat
  | [] => none
  | c :: rest =>
    if c = '\n' ∧ rest.take 3 = ['-', '-', '-'] then some 0
    else (findNewlineDashes rest).map (fun n => n + 1)

/-- Backtracking match of the frontmatter pattern after the opening three
dashes: a greedy whitespace run, then a newline, then the lazily captured
block, then a newline followed by three dashes.  Returns the captured
block.  The greedy run is tried longest first; on failure the newline is
matched at the current position. -/
def fmTail : List Char → Option (List Char)
  | [] => none
  | c :: rest =>
    match (if isJsSpace c then fmTail rest else none) with
    | some g => some g
    | none =>
      if c = '\n' then
        match findNewlineDashes rest with
        | some n => some (rest.take n)
        | none => none
      else none

/-- The frontmatter regular expression of `extractFrontmatter` on the
character list: anchored three dashes, then the `fmTail` part. -/
def fmMatchL : List Char → Option (List Char)
  | a :: b :: c :: rest => if a = '-' ∧ b = '-' ∧ c = '-' then fmTail rest else none
  | _ => none

/-- The frontmatter regular expression of `extractFrontmatter`: anchored
three dashes, optional whitespace, a newline, the captured block, then a
newline and three dashes.  Returns the captured block when the content
matches. -/
def fmMatch (content : String) : Option String :=
  (fmMatchL content.data).map (fun g => String.mk g)

/-- `extractFrontmatter` from the content validator: match the pattern and
parse the captured block as YAML; a failed match or a thrown YAML error
yields nothing. -/
def extractFrontmatter {α : Type} (m : CVModel α) (content : String) : Option α :=
  match fmMatch content with
  | none => none
  | some g =>
    match m.parseYaml g with
    | Except.ok v => some v
    | Except.error _ => none

/-- `validateMarkdownFile` from the content validator: a missing file, a
failed frontmatter extraction or a falsy extracted value fail before the
schema is consulted. -/
def validateMarkdownFile {α : Type} (m : CVModel α) (filePath : String) (schema : Schema α) :
    ValidationResult :=
  if m.fexists filePath = false then
    ⟨false, filePath, some ["File not found: " ++ filePath]⟩
  else
    match extractFrontmatter m (m.readFile filePath) with
    | none => ⟨false, filePath, some ["No frontmatter found in markdown file"]⟩
    | some frontmatter =>
      if m.falsy frontmatter then
        ⟨false, filePath, some ["No frontmatter found in markdown file"]⟩
      else
        match schema.safeParse frontmatter with
        | SafeParseResult.ok _ => ⟨true, filePath, none⟩
        | SafeParseResult.fail issues _ => ⟨false, filePath, some (formatZodErrors issues)⟩

/-- `getFilesInDirectory` from the content validator: the files of one
directory whose lower-cased extension is in the given list. -/
def getFilesInDirectory {α : Type} (m : CVModel α) (dir : String) (extensions : List String) :
    List String :=
  if m.fexists dir = false then []
  else
    ((m.readdir dir).filter (fun e =>
        e.isFile && extensions.contains (String.mk ((extnameChars e.name.data).map lowerChar)))).map
      (fun e => joinPath dir e.name)

/-- The five zod schemas consumed by `validateAllContent`. -/
structure AllSchemas (α : Type) where
  resume : Schema α
  testimonials : Schema α
  repositories : Schema α
  publications : Schema α
  product : Schema α

/-- The fixed YAML data files validated by `validateAllContent`, in source
order. -/
def yamlDataPaths (basePath : String) : List String :=
  [joinPath basePath "src/data/resume.yaml",
   joinPath basePath "src/data/testimonials.yaml",
   joinPath basePath "src/data/repositories.yaml",
   joinPath basePath "src/data/publications.yaml"]

/-- The product Markdown files considered by `validateAllContent`: the
`.md`/`.mdx` files of the products directory, with `.gitkeep` skipped. -/
def productCandidateFiles {α : Type} (m : CVModel α) (basePath : String) : List String :=
  let productsDir := joinPath basePath "src/data/products"
  (getFilesInDirectory m productsDir [".md", ".mdx"]).filter
    (fun f => basenameStr f ≠ ".gitkeep")

/-- The `summary` record of a `ContentValidationReport`. -/
structure ReportSummary where
  total : Nat
  valid : Nat
  invalid : Nat
deriving Repr, DecidableEq

/-- The `ContentValidationReport` record (wall-clock timestamp omitted). -/
structure ContentValidationReport where
  success : Bool
  results : List ValidationResult
  summary : ReportSummary
deriving Repr, DecidableEq

/-- `validateAllContent` from the content validator: validate each of the
four fixed YAML data files when it exists, then every product Markdown
file, and aggregate the counts. -/
def validateAllContent {α : Type} (m : CVModel α) (schemas : AllSchemas α) (basePath : String) :
    ContentValidationReport :=
  let yamlValidations : List (String × Schema α) :=
    [(joinPath basePath "src/data/resume.yaml", schemas.resume),
     (joinPath basePath "src/data/testimonials.yaml", schemas.testimonials),
     (joinPath basePath "src/data/repositories.yaml", schemas.repositories),
     (joinPath basePath "src/data/publications.yaml", schemas.publications)]
  let yamlResults := (yamlValidations.filter (fun v => m.fexists v.1)).map
    (fun v => validateYamlFile m v.1 v.2)
  let productResults := (productCandidateFiles m basePath).map
    (fun f => validateMarkdownFile m f schemas.product)
  let results := yamlResults ++ productResults
  let valid := (results.filter (fun r => r.valid)).length
  let invalid := (results.filter (fun r => !r.valid)).length
  { success := invalid == 0
    results := results
    summary := ⟨results.length, valid, invalid⟩ }

/-! ## Content manifest diffing -/

/-- The `added` / `modified` / `deleted` classification returned by
`detectContentChanges`. -/
structure ChangeReport where
  added : List String
  modified : List String
  deleted : List String
deriving Repr, DecidableEq

/-- A content manifest: an object mapping file path to last-modified
timestamp, modelled as its entry list (object keys are unique). -/
def lookupTime (manifest : List (String × Nat)) (file : String) : Option Nat :=
  (manifest.find? (fun e => e.1 == file)).map (fun e => e.2)

/-- `detectContentChanges` from the content validator: a pass over the new
manifest classifying added and modified paths, then a pass over the old
manifest collecting deleted paths. -/
def detectContentChanges (oldManifest newManifest : List (String × Nat)) : ChangeReport :=
  let added := (newManifest.filter (fun e => (lookupTime oldManifest e.1).isNone)).map
    (fun e => e.1)
  let modified := (newManifest.filter (fun e =>
    match lookupTime oldManifest e.1 with
    | some t => t ≠ e.2
    | none => false)).map (fun e => e.1)
  let deleted := (oldManifest.filter (fun e => (lookupTime newManifest e.1).isNone)).map
    (fun e => e.1)
  ⟨added, modified, deleted⟩

/-- Split content into lines at newline characters. -/
def splitLines : List Char → List (List Char)
  | [] => [[]]
  | c :: t =>
    let r := splitLines t
    if c = '\n' then [] :: r
    else
      match r with
      | [] => [[c]]
      | h :: t2 => (c :: h) :: t2

/-- The frontmatter-block condition as worded by the specification: the
content begins with a line consisting of exactly three dashes, and a later
line consists of exactly three dashes. -/
def hasStrictFrontmatterBlock (content : String) : Bool :=
  match splitLines content.data with
  | [] => false
  | first :: rest => first = ['-', '-', '-'] && rest.any (fun ln => ln = ['-', '-', '-'])

/-! ## Characterization of the content-hash scan -/

/-- The hexadecimal-run scan succeeds exactly on lists that start with at
least `8 - n` hexadecimal digits followed by a dot. -/
theorem hexRunThenDot_iff (l : List Char) :
    ∀ n : Nat, hexRunThenDot n l = true ↔
      ∃ h rest, l = h ++ '.' :: rest ∧ h.all isHexDigit = true ∧ 8 ≤ n + h.length := by
  induction l with
  | nil =>
    intro n
    simp [hexRunThenDot]
  | cons c t ih =>
    intro n
    by_cases h1 : 8 ≤ n ∧ c = '.'
    · simp only [hexRunThenDot, if_pos h1]
      constructor
      · intro _
        exact ⟨[], t, by simp [h1.2], rfl, by simpa using h1.1⟩
      · intro _
        trivial
    · by_cases h2 : isHexDigit c = true
      · have hcd : c ≠ '.' := by
          intro he
          rw [he] at h2
          simp [isHexDigit] at h2
        simp only [hexRunThenDot, if_neg h1, if_pos h2]
        rw [ih (n + 1)]
        constructor
        · rintro ⟨h, rest, rfl, hall, hlen⟩
          refine ⟨c :: h, rest, rfl, by simp [h2, hall], ?_⟩
          simp only [List.length_cons]
          omega
        · rintro ⟨h, rest, heq, hall, hlen⟩
          cases h with
          | nil =>
            simp only [List.nil_append, List.cons.injEq] at heq
            exact absurd heq.1 hcd
          | cons a h2' =>
            rw [List.cons_append, List.cons.injEq] at heq
            have hall' : h2'.all isHexDigit = true := by
              rw [List.all_cons, Bool.and_eq_true] at hall
              exact hall.2
            have hlen' : 8 ≤ (n + 1) + h2'.length := by
              simp only [List.length_cons] at hlen
              omega
            exact ⟨h2', rest, heq.2, hall', hlen'⟩
      · simp only [hexRunThenDot, if_neg h1, if_neg h2]
        constructor
        · intro hf
          cases hf
        · rintro ⟨h, rest, heq, hall, hlen⟩
          cases h with
          | nil =>
            simp only [List.nil_append, List.cons.injEq] at heq
            exact (h1 ⟨by simpa using hlen, heq.1⟩).elim
          | cons a h2' =>
            rw [List.cons_append, List.cons.injEq] at heq
            rw [List.all_cons, Bool.and_eq_true] at hall
            exact (h2 (heq.1 ▸ hall.1)).elim

/-- The position scan of `hasContentHash` succeeds exactly when some
position carries a separator followed by a successful hex-run match. -/
theorem hashScan_iff (l : List Char) :
    hashScan l = true ↔
      ∃ a s rest, l = a ++ s :: rest ∧ isSep s = true ∧ hexRunThenDot 0 rest = true := by
  induction l with
  | nil =>
    simp [hashScan]
  | cons c t ih =>
    simp only [hashScan, Bool.or_eq_true, Bool.and_eq_true, ih]
    constructor
    · rintro (⟨hs, hr⟩ | ⟨a, s, rest, rfl, hs, hr⟩)
      · exact ⟨[], c, t, rfl, hs, hr⟩
      · exact ⟨c :: a, s, rest, rfl, hs, hr⟩
    · rintro ⟨a, s, rest, heq, hs, hr⟩
      cases a with
      | nil =>
        simp only [List.nil_append, List.cons.injEq] at heq
        exact Or.inl ⟨heq.1 ▸ hs, heq.2 ▸ hr⟩
      | cons b a' =>
        rw [List.cons_append, List.cons.injEq] at heq
        exact Or.inr ⟨a', s, rest, heq.2, hs, hr⟩

/-- C3 counterexample: `hasContentHash` answers `true` on
`a.abcdef12.foo.css` although the 8-hex-digit segment does not sit
immediately before the final extension (`hasContentHashSpec` renders the
claim's wording of the condition). -/
theorem hasContentHash_counterexample :
    hasContentHash "a.abcdef12.foo.css" = true ∧
    hasContentHashSpec "a.abcdef12.foo.css" = false :=
  ⟨by decide, by decide⟩

/-- C3 (amended): `hasContentHash` answers `true` exactly when the file
name contains, anywhere, a separator from `[._-]` followed by at least 8
case-insensitive hexadecimal digits followed by a dot; the three
documented examples behave as stated. -/
theorem hasContentHash_amended_spec :
    (∀ filename : String, hasContentHash filename = true ↔
      ∃ a s h rest, filename.data = a ++ s :: (h ++ '.' :: rest) ∧
        isSep s = true ∧ h.all isHexDigit = true ∧ 8 ≤ h.length) ∧
    hasContentHash "style.abc12345.css" = true ∧
    hasContentHash "style.css" = false ∧
    hasContentHash "style.abc.css" = false := by
  refine ⟨?_, by decide, by decide, by decide⟩
  intro filename
  rw [hasContentHash, hashScan_iff]
  constructor
  · rintro ⟨a, s, rest, heq, hs, hr⟩
    rw [hexRunThenDot_iff] at hr
    obtain ⟨h, rest2, rfl, hall, hlen⟩ := hr
    exact ⟨a, s, h, rest2, heq, hs, hall, by simpa using hlen⟩
  · rintro ⟨a, s, h, rest, heq, hs, hall, hlen⟩
    exact ⟨a, s, h ++ '.' :: rest, heq, hs,
      (hexRunThenDot_iff _ 0).2 ⟨h, rest, rfl, hall, by simpa using hlen⟩⟩

/-! ## C9: asset classification -/

/-- C9: `getAssetType` is a total function of the file name, depends only
on the lower-cased extension, maps each listed extension to its class and
everything else to `other`; in particular `main.MJS` is classified as
JavaScript. -/
theorem getAssetType_spec :
    (∀ p q : String,
        (extnameChars p.data).map lowerChar = (extnameChars q.data).map lowerChar →
        getAssetType p = getAssetType q) ∧
    (∀ p : String,
        ((String.mk ((extnameChars p.data).map lowerChar) = ".html" ∨
            String.mk ((extnameChars p.data).map lowerChar) = ".htm") →
          getAssetType p = AssetType.html) ∧
        (String.mk ((extnameChars p.data).map lowerChar) = ".css" →
          getAssetType p = AssetType.css) ∧
        ((String.mk ((extnameChars p.data).map lowerChar) = ".js" ∨
            String.mk ((extnameChars p.data).map lowerChar) = ".mjs") →
          getAssetType p = AssetType.js) ∧
        (String.mk ((extnameChars p.data).map lowerChar) ∈
            [".jpg", ".jpeg", ".png", ".gif", ".webp", ".svg", ".avif", ".ico"] →
          getAssetType p = AssetType.image) ∧
        (String.mk ((extnameChars p.data).map lowerChar) ∉
            [".html", ".htm", ".css", ".js", ".mjs",
             ".jpg", ".jpeg", ".png", ".gif", ".webp", ".svg", ".avif", ".ico"] →
          getAssetType p = AssetType.other)) ∧
    getAssetType "main.MJS" = AssetType.js := by
  refine ⟨?_, ?_, by decide⟩
  · intro p q h
    unfold getAssetType
    rw [h]
  · intro p
    refine ⟨?_, ?_, ?_, ?_, ?_⟩
    · rintro (h | h) <;> (unfold getAssetType; rw [h]; decide)
    · intro h
      unfold getAssetType
      rw [h]
      decide
    · rintro (h | h) <;> (unfold getAssetType; rw [h]; decide)
    · intro h
      simp only [List.mem_cons, List.not_mem_nil, or_false] at h
      rcases h with h | h | h | h | h | h | h | h <;> (unfold getAssetType; rw [h]; decide)
    · intro h
      simp only [List.mem_cons, List.not_mem_nil, or_false, not_or] at h
      obtain ⟨h1, h2, h3, h4, h5, h6, h7, h8, h9, h10, h11, h12, h13⟩ := h
      simp [getAssetType, h1, h2, h3, h4, h5, h6, h7, h8, h9, h10, h11, h12, h13,
        List.elem_iff]

/-- C9 witness: concrete classifications through the specification
theorem, discharging its extension hypotheses. -/
theorem getAssetType_spec_witness :
    getAssetType "photo.JPeG" = AssetType.image ∧
    getAssetType "a/b/readme.txt" = AssetType.other ∧
    getAssetType "A.CSS" = getAssetType "b.css" :=
  ⟨(getAssetType_spec.2.1 "photo.JPeG").2.2.2.1 (by decide),
   (getAssetType_spec.2.1 "a/b/readme.txt").2.2.2.2 (by decide),
   getAssetType_spec.1 "A.CSS" "b.css" (by decide)⟩

/-! ## C10: the empty-content edge of the minification heuristics -/

/-- C10: `isCssMinified` on the empty string is false (the unguarded
division of the whitespace-run count by the zero length is NaN in the
source and the strict threshold comparison fails), while `isHtmlMinified`
and `isJsMinified` treat content below their 200- and 100-character
thresholds as trivially minified; a zero-byte css file sampled by
`generateBuildReport` therefore forces the `cssMinified` flag to false. -/
theorem isCssMinified_empty_spec :
    isCssMinified "" = false ∧
    (∀ content : String, content.data.length < 200 → isHtmlMinified content = true) ∧
    (∀ content : String, content.data.length < 100 → isJsMinified content = true) ∧
    (generateBuildReport [⟨"style.css", "style.css", 0, ""⟩]).optimizationChecks.cssMinified =
      false := by
  refine ⟨by decide, ?_, ?_, by decide⟩
  · intro content h
    simp only [isHtmlMinified]
    rw [if_pos h]
  · intro content h
    simp only [isJsMinified]
    rw [if_pos h]

/-- C10 witness: concrete small contents for the threshold branches. -/
theorem isCssMinified_empty_spec_witness :
    ("hello".data.length < 200 ∧ isHtmlMinified "hello" = true) ∧
    ("x = 1".data.length < 100 ∧ isJsMinified "x = 1" = true) :=
  ⟨⟨by decide, isCssMinified_empty_spec.2.1 "hello" (by decide)⟩,
   ⟨by decide, isCssMinified_empty_spec.2.2.1 "x = 1" (by decide)⟩⟩

/-! ## C7: testimonial rating average -/

/-- A list bounded above pointwise has its sum bounded by length times the
bound. -/
theorem list_sum_le_length_mul (l : List ℚ) (b : ℚ) (hb : ∀ x ∈ l, x ≤ b) :
    l.sum ≤ (l.length : ℚ) * b := by
  have h := List.sum_le_card_nsmul l b hb
  simpa [nsmul_eq_mul] using h

/-- A list bounded below pointwise has length times the bound below its
sum. -/
theorem length_mul_le_list_sum (l : List ℚ) (b : ℚ) (hb : ∀ x ∈ l, b ≤ x) :
    (l.length : ℚ) * b ≤ l.sum := by
  have h := List.card_nsmul_le_sum l b hb
  simpa [nsmul_eq_mul] using h

/-- C7: `calculateAverageRating` answers `none` exactly when no
testimonial matches the course slug, and on a non-empty matching set of
ratings that are integers in `[1, 5]` it answers the mean rating times
ten, rounded and divided by ten, which lies in `[1, 5]`. -/
theorem calculateAverageRating_spec :
    ∀ (testimonials : List Testimonial) (courseSlug : String),
      (calculateAverageRating testimonials courseSlug = none ↔
        testimonials.filter (fun t => t.courseSlug == courseSlug) = []) ∧
      (testimonials.filter (fun t => t.courseSlug == courseSlug) ≠ [] →
        (∀ t ∈ testimonials.filter (fun t => t.courseSlug == courseSlug),
            (∃ k : ℤ, t.rating = (k : ℚ)) ∧ 1 ≤ t.rating ∧ t.rating ≤ 5) →
        ∃ r : ℚ,
          calculateAverageRating testimonials courseSlug = some r ∧
          r = (jsRound
                (((testimonials.filter (fun t => t.courseSlug == courseSlug)).map
                      Testimonial.rating).sum /
                    ((testimonials.filter (fun t => t.courseSlug == courseSlug)).length : ℚ) *
                  10) : ℚ) / 10 ∧
          1 ≤ r ∧ r ≤ 5) := by
  intro ts slug
  constructor
  · constructor
    · intro h
      by_contra hne
      have hlen : ¬ (ts.filter (fun t => t.courseSlug == slug)).length = 0 := by
        simpa [List.length_eq_zero] using hne
      simp [calculateAverageRating, hlen] at h
    · intro h
      simp [calculateAverageRating, h]
  · intro hne hb
    have hlen : ¬ (ts.filter (fun t => t.courseSlug == slug)).length = 0 := by
      simpa [List.length_eq_zero] using hne
    have hlpos : 0 < ((ts.filter (fun t => t.courseSlug == slug)).length : ℚ) := by
      have h0 : 0 < (ts.filter (fun t => t.courseSlug == slug)).length :=
        Nat.pos_of_ne_zero hlen
      exact_mod_cast h0
    have hub : ∀ x ∈ (ts.filter (fun t => t.courseSlug == slug)).map Testimonial.rating,
        x ≤ 5 := by
      rintro x hx
      obtain ⟨t, ht, rfl⟩ := List.mem_map.1 hx
      exact (hb t ht).2.2
    have hlb : ∀ x ∈ (ts.filter (fun t => t.courseSlug == slug)).map Testimonial.rating,
        1 ≤ x := by
      rintro x hx
      obtain ⟨t, ht, rfl⟩ := List.mem_map.1 hx
      exact (hb t ht).2.1
    have hSub := list_sum_le_length_mul _ 5 hub
    have hSlb := length_mul_le_list_sum _ 1 hlb
    rw [List.length_map] at hSub hSlb
    have hmean_ub : ((ts.filter (fun t => t.courseSlug == slug)).map Testimonial.rating).sum /
        ((ts.filter (fun t => t.courseSlug == slug)).length : ℚ) ≤ 5 := by
      rw [div_le_iff₀ hlpos]
      linarith
    have hmean_lb : 1 ≤ ((ts.filter (fun t => t.courseSlug == slug)).map Testimonial.rating).sum /
        ((ts.filter (fun t => t.courseSlug == slug)).length : ℚ) := by
      rw [le_div_iff₀ hlpos]
      linarith
    have hzlb : (10 : ℤ) ≤ jsRound
        (((ts.filter (fun t => t.courseSlug == slug)).map Testimonial.rating).sum /
          ((ts.filter (fun t => t.courseSlug == slug)).length : ℚ) * 10) := by
      rw [jsRound, Int.le_floor]
      push_cast
      linarith
    have hzub : jsRound
        (((ts.filter (fun t => t.courseSlug == slug)).map Testimonial.rating).sum /
          ((ts.filter (fun t => t.courseSlug == slug)).length : ℚ) * 10) ≤ 50 := by
      have hle : jsRound
          (((ts.filter (fun t => t.courseSlug == slug)).map Testimonial.rating).sum /
            ((ts.filter (fun t => t.courseSlug == slug)).length : ℚ) * 10) ≤
          Int.floor ((101 : ℚ) / 2) := by
        rw [jsRound]
        apply Int.floor_le_floor
        linarith
      have hv : Int.floor ((101 : ℚ) / 2) = 50 := by
        rw [Int.floor_eq_iff]
        norm_num
      omega
    refine ⟨_, ?_, rfl, ?_, ?_⟩
    · simp only [calculateAverageRating]
      rw [if_neg hlen]
    · have hc : (10 : ℚ) ≤ (jsRound
          (((ts.filter (fun t => t.courseSlug == slug)).map Testimonial.rating).sum /
            ((ts.filter (fun t => t.courseSlug == slug)).length : ℚ) * 10) : ℚ) := by
        exact_mod_cast hzlb
      linarith
    · have hc : ((jsRound
          (((ts.filter (fun t => t.courseSlug == slug)).map Testimonial.rating).sum /
            ((ts.filter (fun t => t.courseSlug == slug)).length : ℚ) * 10) : ℚ)) ≤ 50 := by
        exact_mod_cast hzub
      linarith

/-- C7 witness: two five- and four-star testimonials of one course give an
average in range, none for an unknown course. -/
theorem calculateAverageRating_spec_witness :
    (∃ r : ℚ,
      calculateAverageRating [⟨"c", 5⟩, ⟨"c", 4⟩, ⟨"d", 1⟩] "c" = some r ∧ 1 ≤ r ∧ r ≤ 5) ∧
    (calculateAverageRating [⟨"c", 5⟩, ⟨"c", 4⟩, ⟨"d", 1⟩] "zzz" = none) := by
  constructor
  · have hbnd : ∀ t ∈ ([⟨"c", 5⟩, ⟨"c", 4⟩, ⟨"d", 1⟩] : List Testimonial).filter
        (fun t => t.courseSlug == "c"),
        (∃ k : ℤ, t.rating = (k : ℚ)) ∧ 1 ≤ t.rating ∧ t.rating ≤ 5 := by
      intro t ht
      have hft : (([⟨"c", 5⟩, ⟨"c", 4⟩, ⟨"d", 1⟩] : List Testimonial).filter
          (fun t => t.courseSlug == "c")) = [⟨"c", 5⟩, ⟨"c", 4⟩] := by decide
      rw [hft] at ht
      simp only [List.mem_cons, List.not_mem_nil, or_false] at ht
      rcases ht with ht | ht
      · rw [ht]
        exact ⟨⟨5, by norm_num⟩, by norm_num, by norm_num⟩
      · rw [ht]
        exact ⟨⟨4, by norm_num⟩, by norm_num, by norm_num⟩
    obtain ⟨r, h1, _h2, h3, h4⟩ :=
      (calculateAverageRating_spec [⟨"c", 5⟩, ⟨"c", 4⟩, ⟨"d", 1⟩] "c").2 (by decide) hbnd
    exact ⟨r, h1, h3, h4⟩
  · exact (calculateAverageRating_spec [⟨"c", 5⟩, ⟨"c", 4⟩, ⟨"d", 1⟩] "zzz").1.2 (by decide)

/-! ## C8: build-optimization validation -/

/-- C8: `validateBuildOptimization` is valid exactly when its error list
is empty, emits exactly one error string per false optimization flag, and
a false `allAssetsHashed` yields an error containing "content hashes". -/
theorem validateBuildOptimization_spec :
    ∀ fs : List FileEntry,
      ((validateBuildOptimization fs).valid = true ↔
        (validateBuildOptimization fs).errors = []) ∧
      (validateBuildOptimization fs).errors.length =
        ((if (generateBuildReport fs).optimizationChecks.allAssetsHashed = true then 0 else 1) +
          (if (generateBuildReport fs).optimizationChecks.htmlMinified = true then 0 else 1) +
          (if (generateBuildReport fs).optimizationChecks.cssMinified = true then 0 else 1) +
          (if (generateBuildReport fs).optimizationChecks.jsMinified = true then 0 else 1)) ∧
      ((generateBuildReport fs).optimizationChecks.allAssetsHashed = false →
        ∃ e ∈ (validateBuildOptimization fs).errors,
          ∃ pre post : List Char, e.data = pre ++ "content hashes".data ++ post) := by
  intro fs
  refine ⟨?_, ?_, ?_⟩
  · have hv : (validateBuildOptimization fs).valid =
        ((validateBuildOptimization fs).errors.length == 0) := rfl
    rw [hv, beq_iff_eq, List.length_eq_zero]
  · cases hA : (generateBuildReport fs).optimizationChecks.allAssetsHashed <;>
      cases hH : (generateBuildReport fs).optimizationChecks.htmlMinified <;>
        cases hC : (generateBuildReport fs).optimizationChecks.cssMinified <;>
          cases hJ : (generateBuildReport fs).optimizationChecks.jsMinified <;>
            simp [validateBuildOptimization, hA, hH, hC, hJ]
  · intro hA
    refine ⟨"Not all CSS/JS assets in the assets folder have content hashes", ?_,
      "Not all CSS/JS assets in the assets folder have ".data, [], by decide⟩
    simp [validateBuildOptimization, hA]

/-- C8 witness: an unhashed css file under the assets folder produces an
invalid result whose error mentions content hashes. -/
theorem validateBuildOptimization_spec_witness :
    ((generateBuildReport [⟨"assets/style.css", "style.css", 6, "body"⟩]).optimizationChecks.allAssetsHashed = false) ∧
    (∃ e ∈ (validateBuildOptimization [⟨"assets/style.css", "style.css", 6, "body"⟩]).errors,
      ∃ pre post : List Char, e.data = pre ++ "content hashes".data ++ post) :=
  ⟨by decide,
   (validateBuildOptimization_spec [⟨"assets/style.css", "style.css", 6, "body"⟩]).2.2
     (by decide)⟩

/-! ## C6: build report generation -/

/-- Pointwise-equal predicates give equal `all` results. -/
theorem all_congr_mem {α : Type} {l : List α} {f g : α → Bool}
    (h : ∀ x ∈ l, f x = g x) : l.all f = l.all g := by
  induction l with
  | nil => rfl
  | cons a t ih =>
    simp only [List.all_cons, h a (List.mem_cons_self a t),
      ih (fun x hx => h x (List.mem_cons_of_mem a hx))]

/-- A successful `find?` on the left list is unchanged by appending. -/
theorem find?_append_left {α : Type} {p : α → Bool} {l₁ l₂ : List α}
    (h : (l₁.find? p).isSome = true) : (l₁ ++ l₂).find? p = l₁.find? p := by
  induction l₁ with
  | nil => simp at h
  | cons a t ih =>
    by_cases hp : p a
    · rw [List.cons_append, List.find?_cons_of_pos _ hp, List.find?_cons_of_pos _ hp]
    · have h' : (t.find? p).isSome = true := by
        rw [List.find?_cons_of_neg _ hp] at h
        exact h
      rw [List.cons_append, List.find?_cons_of_neg _ hp, List.find?_cons_of_neg _ hp]
      exact ih h'

/-- An asset collected from the walk always has a corresponding walk entry
with its relative path. -/
theorem mem_collectFiles_find {fs : List FileEntry} {a : AssetInfo}
    (h : a ∈ collectFiles fs) :
    (fs.find? (fun f => f.relPath == a.path)).isSome = true := by
  obtain ⟨f, hf, rfl⟩ := List.mem_map.1 h
  rw [List.find?_isSome]
  exact ⟨f, hf, by simp⟩

/-- Reading a collected asset's path is unaffected by files appended to
the walk. -/
theorem readBuild_append {fs extra : List FileEntry} {a : AssetInfo}
    (h : a ∈ collectFiles fs) :
    readBuild (fs ++ extra) a.path = readBuild fs a.path := by
  rw [readBuild, readBuild, find?_append_left (mem_collectFiles_find h)]

/-- C6: `allAssetsHashed` holds exactly when every css or js asset whose
path starts with the assets folder carries a content hash (vacuously true
without such assets); each minification flag samples only the first three
collected files of its type, so walk entries beyond the first three of a
type never affect the flag. -/
theorem generateBuildReport_spec :
    ∀ fs : List FileEntry,
      ((generateBuildReport fs).optimizationChecks.allAssetsHashed = true ↔
        ∀ a ∈ collectFiles fs, strStartsWith a.path "assets/" = true →
          (a.type = AssetType.css ∨ a.type = AssetType.js) → a.hasHash = true) ∧
      ((generateBuildReport fs).optimizationChecks.htmlMinified =
        (((collectFiles fs).filter (fun a => a.type == AssetType.html)).take 3).all
          (fun a => isHtmlMinified (readBuild fs a.path))) ∧
      ((generateBuildReport fs).optimizationChecks.cssMinified =
        (((collectFiles fs).filter (fun a => a.type == AssetType.css)).take 3).all
          (fun a => isCssMinified (readBuild fs a.path))) ∧
      ((generateBuildReport fs).optimizationChecks.jsMinified =
        (((collectFiles fs).filter (fun a => a.type == AssetType.js)).take 3).all
          (fun a => isJsMinified (readBuild fs a.path))) ∧
      (∀ extra : List FileEntry,
        (3 ≤ ((collectFiles fs).filter (fun a => a.type == AssetType.html)).length →
          (generateBuildReport (fs ++ extra)).optimizationChecks.htmlMinified =
            (generateBuildReport fs).optimizationChecks.htmlMinified) ∧
        (3 ≤ ((collectFiles fs).filter (fun a => a.type == AssetType.css)).length →
          (generateBuildReport (fs ++ extra)).optimizationChecks.cssMinified =
            (generateBuildReport fs).optimizationChecks.cssMinified) ∧
        (3 ≤ ((collectFiles fs).filter (fun a => a.type == AssetType.js)).length →
          (generateBuildReport (fs ++ extra)).optimizationChecks.jsMinified =
            (generateBuildReport fs).optimizationChecks.jsMinified)) := by
  intro fs
  have hhash : (generateBuildReport fs).optimizationChecks.allAssetsHashed =
      ((((collectFiles fs).filter (fun a =>
          strStartsWith a.path "assets/" &&
            (a.type == AssetType.css || a.type == AssetType.js))).length == 0) ||
        ((collectFiles fs).filter (fun a =>
          strStartsWith a.path "assets/" &&
            (a.type == AssetType.css || a.type == AssetType.js))).all
          (fun a => a.hasHash)) := rfl
  refine ⟨?_, rfl, rfl, rfl, ?_⟩
  · rw [hhash]
    simp only [Bool.or_eq_true, beq_iff_eq, List.length_eq_zero, List.all_eq_true,
      List.mem_filter, Bool.and_eq_true, Bool.or_eq_true, beq_iff_eq]
    constructor
    · rintro (hnil | hall) a ha hs ht
      · have hmem : a ∈ (collectFiles fs).filter (fun a =>
            strStartsWith a.path "assets/" &&
              (a.type == AssetType.css || a.type == AssetType.js)) := by
          rw [List.mem_filter]
          refine ⟨ha, ?_⟩
          rw [Bool.and_eq_true, Bool.or_eq_true, beq_iff_eq, beq_iff_eq]
          exact ⟨hs, ht⟩
        rw [hnil] at hmem
        cases hmem
      · exact hall a ⟨ha, hs, ht⟩
    · intro hforall
      by_cases hnil : (collectFiles fs).filter (fun a =>
          strStartsWith a.path "assets/" &&
            (a.type == AssetType.css || a.type == AssetType.js)) = []
      · exact Or.inl hnil
      · refine Or.inr ?_
        rintro a ⟨ha, hs, ht⟩
        exact hforall a ha hs ht
  · intro extra
    have hcoll : collectFiles (fs ++ extra) = collectFiles fs ++ collectFiles extra :=
      List.map_append _ fs extra
    refine ⟨?_, ?_, ?_⟩
    · intro h3
      show (((collectFiles (fs ++ extra)).filter (fun a => a.type == AssetType.html)).take 3).all
          (fun a => isHtmlMinified (readBuild (fs ++ extra) a.path)) =
        (((collectFiles fs).filter (fun a => a.type == AssetType.html)).take 3).all
          (fun a => isHtmlMinified (readBuild fs a.path))
      rw [hcoll, List.filter_append, List.take_append_of_le_length h3]
      apply all_congr_mem
      intro x hx
      have hxc : x ∈ collectFiles fs :=
        List.mem_of_mem_filter (List.take_subset 3 _ hx)
      rw [readBuild_append hxc]
    · intro h3
      show (((collectFiles (fs ++ extra)).filter (fun a => a.type == AssetType.css)).take 3).all
          (fun a => isCssMinified (readBuild (fs ++ extra) a.path)) =
        (((collectFiles fs).filter (fun a => a.type == AssetType.css)).take 3).all
          (fun a => isCssMinified (readBuild fs a.path))
      rw [hcoll, List.filter_append, List.take_append_of_le_length h3]
      apply all_congr_mem
      intro x hx
      have hxc : x ∈ collectFiles fs :=
        List.mem_of_mem_filter (List.take_subset 3 _ hx)
      rw [readBuild_append hxc]
    · intro h3
      show (((collectFiles (fs ++ extra)).filter (fun a => a.type == AssetType.js)).take 3).all
          (fun a => isJsMinified (readBuild (fs ++ extra) a.path)) =
        (((collectFiles fs).filter (fun a => a.type == AssetType.js)).take 3).all
          (fun a => isJsMinified (readBuild fs a.path))
      rw [hcoll, List.filter_append, List.take_append_of_le_length h3]
      apply all_congr_mem
      intro x hx
      have hxc : x ∈ collectFiles fs :=
        List.mem_of_mem_filter (List.take_subset 3 _ hx)
      rw [readBuild_append hxc]

/-- C6 witness: with three minified html files walked, appending a fourth
unminified one does not change the html flag; a hashed css asset under the
assets folder satisfies the hash check. -/
theorem generateBuildReport_spec_witness :
    (3 ≤ ((collectFiles
        [⟨"a.html", "a.html", 9, "<p>a</p>"⟩,
         ⟨"b.html", "b.html", 9, "<p>b</p>"⟩,
         ⟨"c.html", "c.html", 9, "<p>c</p>"⟩]).filter
          (fun a => a.type == AssetType.html)).length ∧
      (generateBuildReport
        ([⟨"a.html", "a.html", 9, "<p>a</p>"⟩,
          ⟨"b.html", "b.html", 9, "<p>b</p>"⟩,
          ⟨"c.html", "c.html", 9, "<p>c</p>"⟩] ++
         [⟨"d.html", "d.html", 9, "<p>d</p>"⟩])).optimizationChecks.htmlMinified =
        (generateBuildReport
          [⟨"a.html", "a.html", 9, "<p>a</p>"⟩,
           ⟨"b.html", "b.html", 9, "<p>b</p>"⟩,
           ⟨"c.html", "c.html", 9, "<p>c</p>"⟩]).optimizationChecks.htmlMinified) ∧
    ((generateBuildReport
        [⟨"assets/style.ab12cd34.css", "style.ab12cd34.css", 6, "body"⟩]).optimizationChecks.allAssetsHashed = true) :=
  ⟨⟨by decide,
    ((generateBuildReport_spec
        [⟨"a.html", "a.html", 9, "<p>a</p>"⟩,
         ⟨"b.html", "b.html", 9, "<p>b</p>"⟩,
         ⟨"c.html", "c.html", 9, "<p>c</p>"⟩]).2.2.2.2
      [⟨"d.html", "d.html", 9, "<p>d</p>"⟩]).1 (by decide)⟩,
   (generateBuildReport_spec
      [⟨"assets/style.ab12cd34.css", "style.ab12cd34.css", 6, "body"⟩]).1.2
    (by decide)⟩

/-! ## C1: manifest diffing -/

/-- With unique keys (the JavaScript object invariant), a lookup answers a
timestamp exactly for the entries of the manifest. -/
theorem lookupTime_eq_some_iff :
    ∀ (m : List (String × Nat)), (m.map Prod.fst).Nodup → ∀ (p : String) (t : Nat),
      (lookupTime m p = some t ↔ (p, t) ∈ m) := by
  intro m
  induction m with
  | nil =>
    intro _ p t
    simp [lookupTime]
  | cons e rest ih =>
    intro hnd p t
    obtain ⟨q, s⟩ := e
    rw [List.map_cons, List.nodup_cons] at hnd
    by_cases hpq : q = p
    · subst hpq
      rw [lookupTime, List.find?_cons_of_pos _ (by simp)]
      constructor
      · intro h
        have hst : s = t := by simpa using h
        subst hst
        exact List.mem_cons_self _ _
      · intro h
        rcases List.mem_cons.1 h with h1 | h1
        · have hts : t = s := congrArg Prod.snd h1
          simp [hts]
        · exact absurd (List.mem_map.2 ⟨(q, t), h1, rfl⟩) hnd.1
    · rw [lookupTime, List.find?_cons_of_neg _ (by simp [fun h => hpq h])]
      rw [← lookupTime, ih hnd.2 p t, List.mem_cons]
      constructor
      · exact fun h => Or.inr h
      · rintro (h1 | h1)
        · exact absurd (congrArg Prod.fst h1).symm hpq
        · exact h1

/-- A lookup answers nothing exactly when the path is not a key. -/
theorem lookupTime_eq_none_iff (m : List (String × Nat)) (p : String) :
    lookupTime m p = none ↔ p ∉ m.map Prod.fst := by
  simp only [lookupTime, Option.map_eq_none', List.find?_eq_none, beq_iff_eq, List.mem_map]
  constructor
  · rintro h ⟨x, hx, hxp⟩
    exact h x hx hxp
  · intro h x hx hxp
    exact h ⟨x, hx, hxp⟩

/-- C1: over manifests with unique keys, a path is modified exactly when
both manifests hold it with different timestamps, added exactly when only
the new manifest holds it, deleted exactly when only the old one holds it,
and a path held by both with the same timestamp is in none of the three
lists. -/
theorem detectContentChanges_spec :
    ∀ (oldManifest newManifest : List (String × Nat)),
      (oldManifest.map Prod.fst).Nodup → (newManifest.map Prod.fst).Nodup →
      ∀ p : String,
        (p ∈ (detectContentChanges oldManifest newManifest).modified ↔
          ∃ t₁ t₂, lookupTime oldManifest p = some t₁ ∧
            lookupTime newManifest p = some t₂ ∧ t₁ ≠ t₂) ∧
        (p ∈ (detectContentChanges oldManifest newManifest).added ↔
          lookupTime oldManifest p = none ∧ (lookupTime newManifest p).isSome = true) ∧
        (p ∈ (detectContentChanges oldManifest newManifest).deleted ↔
          (lookupTime oldManifest p).isSome = true ∧ lookupTime newManifest p = none) ∧
        (∀ t : Nat, lookupTime oldManifest p = some t → lookupTime newManifest p = some t →
          p ∉ (detectContentChanges oldManifest newManifest).added ∧
          p ∉ (detectContentChanges oldManifest newManifest).modified ∧
          p ∉ (detectContentChanges oldManifest newManifest).deleted) := by
  intro oldM newM hold hnew p
  have hadded : p ∈ (detectContentChanges oldM newM).added ↔
      lookupTime oldM p = none ∧ (lookupTime newM p).isSome = true := by
    show p ∈ (newM.filter (fun e => (lookupTime oldM e.1).isNone)).map (fun e => e.1) ↔ _
    rw [List.mem_map]
    constructor
    · rintro ⟨⟨q, s⟩, he, rfl⟩
      rw [List.mem_filter] at he
      refine ⟨by simpa [Option.isNone_iff_eq_none] using he.2, ?_⟩
      rw [Option.isSome_iff_exists]
      exact ⟨s, (lookupTime_eq_some_iff newM hnew q s).2 he.1⟩
    · rintro ⟨hnone, hsome⟩
      rw [Option.isSome_iff_exists] at hsome
      obtain ⟨t, ht⟩ := hsome
      exact ⟨(p, t),
        List.mem_filter.2 ⟨(lookupTime_eq_some_iff newM hnew p t).1 ht, by simp [hnone]⟩, rfl⟩
  have hmodified : p ∈ (detectContentChanges oldM newM).modified ↔
      ∃ t₁ t₂, lookupTime oldM p = some t₁ ∧ lookupTime newM p = some t₂ ∧ t₁ ≠ t₂ := by
    show p ∈ (newM.filter (fun e =>
        match lookupTime oldM e.1 with
        | some t => t ≠ e.2
        | none => false)).map (fun e => e.1) ↔ _
    rw [List.mem_map]
    constructor
    · rintro ⟨⟨q, s⟩, he, rfl⟩
      rw [List.mem_filter] at he
      have hmem := he.1
      have hpred := he.2
      rcases hcase : lookupTime oldM q with _ | t₁
      · rw [hcase] at hpred
        cases hpred
      · rw [hcase] at hpred
        have hne : t₁ ≠ s := by simpa using hpred
        exact ⟨t₁, s, rfl, (lookupTime_eq_some_iff newM hnew q s).2 hmem, hne⟩
    · rintro ⟨t₁, t₂, h₁, h₂, hne⟩
      refine ⟨(p, t₂),
        List.mem_filter.2 ⟨(lookupTime_eq_some_iff newM hnew p t₂).1 h₂, ?_⟩, rfl⟩
      have : lookupTime oldM (p, t₂).1 = some t₁ := h₁
      rw [this]
      simpa using hne
  have hdeleted : p ∈ (detectContentChanges oldM newM).deleted ↔
      (lookupTime oldM p).isSome = true ∧ lookupTime newM p = none := by
    show p ∈ (oldM.filter (fun e => (lookupTime newM e.1).isNone)).map (fun e => e.1) ↔ _
    rw [List.mem_map]
    constructor
    · rintro ⟨⟨q, s⟩, he, rfl⟩
      rw [List.mem_filter] at he
      refine ⟨?_, by simpa [Option.isNone_iff_eq_none] using he.2⟩
      rw [Option.isSome_iff_exists]
      exact ⟨s, (lookupTime_eq_some_iff oldM hold q s).2 he.1⟩
    · rintro ⟨hsome, hnone⟩
      rw [Option.isSome_iff_exists] at hsome
      obtain ⟨t, ht⟩ := hsome
      exact ⟨(p, t),
        List.mem_filter.2 ⟨(lookupTime_eq_some_iff oldM hold p t).1 ht, by simp [hnone]⟩, rfl⟩
  refine ⟨hmodified, hadded, hdeleted, ?_⟩
  intro t h1 h2
  refine ⟨?_, ?_, ?_⟩
  · rw [hadded]
    rintro ⟨hn, _⟩
    rw [h1] at hn
    cases hn
  · rw [hmodified]
    rintro ⟨t₁, t₂, ht₁, ht₂, hne⟩
    rw [h1] at ht₁
    rw [h2] at ht₂
    have e₁ : t = t₁ := by simpa using ht₁
    have e₂ : t = t₂ := by simpa using ht₂
    exact hne (e₁ ▸ e₂ ▸ rfl)
  · rw [hdeleted]
    rintro ⟨_, hn⟩
    rw [h2] at hn
    cases hn

/-- C1 witness: concrete manifests with one changed, one added and one
deleted path. -/
theorem detectContentChanges_spec_witness :
    "b" ∈ (detectContentChanges [("a", 1), ("b", 2), ("c", 3)]
      [("a", 1), ("b", 5), ("d", 7)]).modified :=
  (detectContentChanges_spec [("a", 1), ("b", 2), ("c", 3)] [("a", 1), ("b", 5), ("d", 7)]
      (by decide) (by decide) "b").1.2 ⟨2, 5, by decide, by decide, by decide⟩

/-! ## C5: the YAML data loader -/

/-- Lists with distinct prefixes of length `k` stay distinct under any
appends. -/
theorem append_take_ne {l₁ l₂ : List Char} (k : Nat) (x y : List Char)
    (h₁ : k ≤ l₁.length) (h₂ : k ≤ l₂.length) (hne : l₁.take k ≠ l₂.take k) :
    l₁ ++ x ≠ l₂ ++ y := by
  intro h
  apply hne
  have h' := congrArg (List.take k) h
  rwa [List.take_append_of_le_length h₁, List.take_append_of_le_length h₂] at h'

/-- Strings with distinct prefixes of length `k` stay distinct under any
appended suffixes. -/
theorem str_append_ne (a b x y : String) (k : Nat)
    (h₁ : k ≤ a.data.length) (h₂ : k ≤ b.data.length)
    (hne : a.data.take k ≠ b.data.take k) : a ++ x ≠ b ++ y := by
  intro h
  have hd := congrArg String.data h
  rw [String.data_append, String.data_append] at hd
  exact append_take_ne k x.data y.data h₁ h₂ hne hd

/-- C5: `loadYamlFile` always returns a result record; a missing file, a
thrown parse error and a schema violation produce error strings with
three mutually exclusive prefixes carrying the file path, the parser
message and the schema message respectively, and a fully successful run
returns the typed parsed value. -/
theorem loadYamlFile_spec :
    ∀ (α : Type) (m : LoaderModel α) (filePath : String) (schema : Schema α),
      (m.fexists (m.resolve filePath) = false →
        loadYamlFile m filePath schema =
          ⟨false, none, some ("File not found: " ++ filePath)⟩) ∧
      (∀ msg, m.fexists (m.resolve filePath) = true →
        m.parseYaml (m.readFile (m.resolve filePath)) = Except.error msg →
        loadYamlFile m filePath schema =
          ⟨false, none, some ("Failed to load file: " ++ msg)⟩) ∧
      (∀ v issues zmsg, m.fexists (m.resolve filePath) = true →
        m.parseYaml (m.readFile (m.resolve filePath)) = Except.ok v →
        schema.safeParse v = SafeParseResult.fail issues zmsg →
        loadYamlFile m filePath schema =
          ⟨false, none, some ("Schema validation failed: " ++ zmsg)⟩) ∧
      (∀ v d, m.fexists (m.resolve filePath) = true →
        m.parseYaml (m.readFile (m.resolve filePath)) = Except.ok v →
        schema.safeParse v = SafeParseResult.ok d →
        loadYamlFile m filePath schema = ⟨true, some d, none⟩) ∧
      (∀ x y : String,
        ("File not found: " ++ x) ≠ ("Failed to load file: " ++ y) ∧
        ("File not found: " ++ x) ≠ ("Schema validation failed: " ++ y) ∧
        ("Failed to load file: " ++ x) ≠ ("Schema validation failed: " ++ y)) := by
  intro α m filePath schema
  refine ⟨?_, ?_, ?_, ?_, ?_⟩
  · intro h
    simp only [loadYamlFile]
    rw [if_pos h]
  · intro msg hex hparse
    simp only [loadYamlFile]
    rw [if_neg (by simp [hex]), hparse]
  · intro v issues zmsg hex hparse hsp
    simp only [loadYamlFile]
    rw [if_neg (by simp [hex]), hparse]
    show (match schema.safeParse v with
      | SafeParseResult.fail _ msg => _
      | SafeParseResult.ok d => _) = _
    rw [hsp]
  · intro v d hex hparse hsp
    simp only [loadYamlFile]
    rw [if_neg (by simp [hex]), hparse]
    show (match schema.safeParse v with
      | SafeParseResult.fail _ msg => _
      | SafeParseResult.ok d => _) = _
    rw [hsp]
  · intro x y
    refine ⟨?_, ?_, ?_⟩
    · exact str_append_ne _ _ x y 3 (by decide) (by decide) (by decide)
    · exact str_append_ne _ _ x y 1 (by decide) (by decide) (by decide)
    · exact str_append_ne _ _ x y 1 (by decide) (by decide) (by decide)

/-- C5 witness: a loader whose file system lacks the requested file
produces the not-found error record. -/
theorem loadYamlFile_spec_witness :
    loadYamlFile
        (⟨fun s => s, fun _ => false, fun _ => "", fun _ => Except.error "eof"⟩ :
          LoaderModel Unit)
        "data.yaml" ⟨fun v => SafeParseResult.ok v⟩ =
      ⟨false, none, some "File not found: data.yaml"⟩ :=
  (loadYamlFile_spec Unit
      ⟨fun s => s, fun _ => false, fun _ => "", fun _ => Except.error "eof"⟩
      "data.yaml" ⟨fun v => SafeParseResult.ok v⟩).1 rfl

/-! ## C4: Markdown frontmatter detection -/

/-- A take of three elements equals three dashes exactly on lists starting
with three dashes. -/
theorem take_three_eq (t : List Char) :
    t.take 3 = ['-', '-', '-'] ↔ ∃ r, t = '-' :: '-' :: '-' :: r := by
  rcases t with _ | ⟨a, _ | ⟨b, _ | ⟨c, r⟩⟩⟩
  · simp
  · simp [List.take]
  · simp [List.take]
  · simp only [List.take]
    constructor
    · intro h
      simp only [List.cons.injEq] at h
      obtain ⟨rfl, rfl, rfl, -⟩ := h
      exact ⟨r, rfl⟩
    · rintro ⟨r', hr⟩
      simp only [List.cons.injEq] at hr
      obtain ⟨rfl, rfl, rfl, -⟩ := hr
      rfl

/-- The tail scan for the closing delimiter succeeds exactly when a
newline immediately followed by three dashes occurs in the list. -/
theorem findNewlineDashes_isSome :
    ∀ l : List Char, (findNewlineDashes l).isSome = true ↔
      ∃ mid rest, l = mid ++ '\n' :: '-' :: '-' :: '-' :: rest := by
  intro l
  induction l with
  | nil => simp [findNewlineDashes]
  | cons c t ih =>
    by_cases hc : c = '\n' ∧ t.take 3 = ['-', '-', '-']
    · simp only [findNewlineDashes, if_pos hc]
      constructor
      · intro _
        obtain ⟨r, hr⟩ := (take_three_eq t).1 hc.2
        refine ⟨[], r, ?_⟩
        rw [List.nil_append, hc.1, hr]
      · intro _
        rfl
    · simp only [findNewlineDashes, if_neg hc]
      rw [Option.isSome_map', ih]
      constructor
      · rintro ⟨mid, rest, rfl⟩
        exact ⟨c :: mid, rest, rfl⟩
      · rintro ⟨mid, rest, heq⟩
        cases mid with
        | nil =>
          simp only [List.nil_append, List.cons.injEq] at heq
          refine absurd ⟨heq.1, ?_⟩ hc
          rw [heq.2]
          rfl
        | cons d mid' =>
          rw [List.cons_append, List.cons.injEq] at heq
          exact ⟨mid', rest, heq.2⟩

/-- One unfolding step of the backtracking tail matcher: it succeeds on
`c :: t` when either `c` is whitespace and it succeeds on `t`, or `c` is a
newline and the closing delimiter occurs in `t`. -/
theorem fmTail_isSome_cons (c : Char) (t : List Char) :
    (fmTail (c :: t)).isSome = true ↔
      ((isJsSpace c = true ∧ (fmTail t).isSome = true) ∨
        (c = '\n' ∧ (findNewlineDashes t).isSome = true)) := by
  have hstep : fmTail (c :: t) =
      (match (if isJsSpace c = true then fmTail t else none) with
       | some g => some g
       | none =>
         if c = '\n' then
           match findNewlineDashes t with
           | some n => some (t.take n)
           | none => none
         else none) := rfl
  by_cases hsp : isJsSpace c = true
  · cases hft : fmTail t with
    | some g => simp [hstep, hsp, hft]
    | none =>
      by_cases hcn : c = '\n'
      · subst hcn
        cases hfd : findNewlineDashes t with
        | some n => simp [hstep, hsp, hft, hfd]
        | none => simp [hstep, hsp, hft, hfd]
      · simp [hstep, hsp, hcn, hft]
  · have hcn : ¬ c = '\n' := fun h => hsp (by rw [h]; rfl)
    simp [hstep, hsp, hcn]

/-- The backtracking tail matcher succeeds exactly on lists made of a
whitespace run, a newline, and a later newline followed by three
dashes. -/
theorem fmTail_isSome :
    ∀ l : List Char, (fmTail l).isSome = true ↔
      ∃ w rest, l = w ++ '\n' :: rest ∧ w.all isJsSpace = true ∧
        ∃ mid rest2, rest = mid ++ '\n' :: '-' :: '-' :: '-' :: rest2 := by
  intro l
  induction l with
  | nil =>
    have h0 : fmTail ([] : List Char) = none := rfl
    simp [h0]
  | cons c t ih =>
    rw [fmTail_isSome_cons]
    constructor
    · rintro (⟨hsp, hdeep⟩ | ⟨hcn, hfind⟩)
      · obtain ⟨w, rest, rfl, hall, hmid⟩ := ih.1 hdeep
        exact ⟨c :: w, rest, rfl, by simp [hsp, hall], hmid⟩
      · obtain ⟨mid, rest2, rfl⟩ := (findNewlineDashes_isSome t).1 hfind
        subst hcn
        exact ⟨[], mid ++ '\n' :: '-' :: '-' :: '-' :: rest2, rfl, rfl, mid, rest2, rfl⟩
    · rintro ⟨w, rest, heq, hall, mid, rest2, hrest⟩
      cases w with
      | nil =>
        simp only [List.nil_append, List.cons.injEq] at heq
        refine Or.inr ⟨heq.1, (findNewlineDashes_isSome t).2 ⟨mid, rest2, ?_⟩⟩
        rw [heq.2, hrest]
      | cons d w' =>
        rw [List.cons_append, List.cons.injEq] at heq
        rw [List.all_cons, Bool.and_eq_true] at hall
        exact Or.inl ⟨heq.1 ▸ hall.1, ih.2 ⟨w', rest, heq.2, hall.2, mid, rest2, hrest⟩⟩

/-- The anchored frontmatter matcher succeeds exactly after an opening
three-dash anchor whose tail matches. -/
theorem fmMatchL_isSome :
    ∀ l : List Char, (fmMatchL l).isSome = true ↔
      ∃ rest, l = '-' :: '-' :: '-' :: rest ∧ (fmTail rest).isSome = true := by
  intro l
  rcases l with _ | ⟨a, _ | ⟨b, _ | ⟨c, rest⟩⟩⟩
  · simp [fmMatchL]
  · simp [fmMatchL]
  · simp [fmMatchL]
  · by_cases h : a = '-' ∧ b = '-' ∧ c = '-'
    · obtain ⟨rfl, rfl, rfl⟩ := h
      simp [fmMatchL]
    · simp only [fmMatchL, if_neg h]
      constructor
      · intro hf
        cases hf
      · rintro ⟨r, heq, -⟩
        simp only [List.cons.injEq] at heq
        exact (h ⟨heq.1, heq.2.1, heq.2.2.1⟩).elim

/-- The frontmatter pattern of `extractFrontmatter` matches exactly the
contents that open with three dashes, a whitespace run and a newline, and
later contain a newline immediately followed by three dashes. -/
theorem fmMatch_isSome (content : String) :
    (fmMatch content).isSome = true ↔
      ∃ w mid rest, content.data =
          '-' :: '-' :: '-' :: (w ++ '\n' :: (mid ++ '\n' :: '-' :: '-' :: '-' :: rest)) ∧
        w.all isJsSpace = true := by
  rw [fmMatch, Option.isSome_map', fmMatchL_isSome]
  constructor
  · rintro ⟨rest, hdata, htail⟩
    obtain ⟨w, r2, hr, hall, mid, r3, hmid⟩ := (fmTail_isSome rest).1 htail
    exact ⟨w, mid, r3, by rw [hdata, hr, hmid], hall⟩
  · rintro ⟨w, mid, rest, hdata, hall⟩
    refine ⟨w ++ '\n' :: (mid ++ '\n' :: '-' :: '-' :: '-' :: rest), hdata, ?_⟩
    exact (fmTail_isSome _).2
      ⟨w, mid ++ '\n' :: '-' :: '-' :: '-' :: rest, rfl, hall, mid, rest, rfl⟩

set_option maxHeartbeats 1600000 in
/-- C4 counterexample: on the content whose closing delimiter line is
`---x` (so no line consists of exactly `---`), the claim's block condition
fails, yet `validateMarkdownFile` extracts the frontmatter and validates
successfully instead of failing with no-frontmatter. -/
theorem validateMarkdownFile_counterexample :
    hasStrictFrontmatterBlock "---\na: 1\n---x" = false ∧
    (validateMarkdownFile
        (⟨fun _ => true, fun _ => "---\na: 1\n---x", fun _ => Except.ok (), fun _ => false,
          fun _ => []⟩ : CVModel Unit)
        "product.md" ⟨fun v => SafeParseResult.ok v⟩).valid = true ∧
    (validateMarkdownFile
        (⟨fun _ => true, fun _ => "---\na: 1\n---x", fun _ => Except.ok (), fun _ => false,
          fun _ => []⟩ : CVModel Unit)
        "product.md" ⟨fun v => SafeParseResult.ok v⟩).errors = none :=
  ⟨by decide, by decide, by decide⟩

/-- C4 (amended): for an existing Markdown file (and schemas whose
formatted error lists never collide with the sentinel message),
`validateMarkdownFile` fails with "no frontmatter found" exactly when
extraction yields nothing or a falsy value; the frontmatter pattern
accepts an opening `---` followed by optional whitespace and a newline and
requires only that a later line begin with `---`; and a thrown YAML parse
error inside the block yields no-frontmatter. -/
theorem validateMarkdownFile_amended_spec :
    ∀ (α : Type) (m : CVModel α) (schema : Schema α) (filePath : String),
      m.fexists filePath = true →
      (∀ v issues msg, schema.safeParse v = SafeParseResult.fail issues msg →
        formatZodErrors issues ≠ ["No frontmatter found in markdown file"]) →
      (((validateMarkdownFile m filePath schema).errors =
          some ["No frontmatter found in markdown file"]) ↔
        (extractFrontmatter m (m.readFile filePath) = none ∨
          ∃ v, extractFrontmatter m (m.readFile filePath) = some v ∧ m.falsy v = true)) ∧
      (∀ content : String,
        ((fmMatch content).isSome = true ↔
          ∃ w mid rest, content.data =
              '-' :: '-' :: '-' :: (w ++ '\n' :: (mid ++ '\n' :: '-' :: '-' :: '-' :: rest)) ∧
            w.all isJsSpace = true)) ∧
      (∀ content g e, fmMatch content = some g → m.parseYaml g = Except.error e →
        extractFrontmatter m content = none) := by
  intro α m schema filePath hex hmsg
  refine ⟨?_, fun content => fmMatch_isSome content, ?_⟩
  · cases hext : extractFrontmatter m (m.readFile filePath) with
    | none =>
      have hval : validateMarkdownFile m filePath schema =
          ⟨false, filePath, some ["No frontmatter found in markdown file"]⟩ := by
        simp [validateMarkdownFile, hex, hext]
      rw [hval]
      simp
    | some v =>
      by_cases hf : m.falsy v = true
      · have hval : validateMarkdownFile m filePath schema =
            ⟨false, filePath, some ["No frontmatter found in markdown file"]⟩ := by
          simp [validateMarkdownFile, hex, hext, hf]
        rw [hval]
        constructor
        · intro _
          exact Or.inr ⟨v, rfl, hf⟩
        · intro _
          rfl
      · cases hsp : schema.safeParse v with
        | ok d =>
          have hval : validateMarkdownFile m filePath schema = ⟨true, filePath, none⟩ := by
            simp [validateMarkdownFile, hex, hext, hf, hsp]
          rw [hval]
          constructor
          · intro h
            cases h
          · rintro (h | ⟨v', hv', hfv'⟩)
            · cases h
            · rw [Option.some.injEq] at hv'
              exact absurd (hv' ▸ hfv') hf
        | fail issues msg =>
          have hval : validateMarkdownFile m filePath schema =
              ⟨false, filePath, some (formatZodErrors issues)⟩ := by
            simp [validateMarkdownFile, hex, hext, hf, hsp]
          rw [hval]
          constructor
          · intro h
            rw [Option.some.injEq] at h
            exact absurd h (hmsg v issues msg hsp)
          · rintro (h | ⟨v', hv', hfv'⟩)
            · cases h
            · rw [Option.some.injEq] at hv'
              exact absurd (hv' ▸ hfv') hf
  · intro content g e hfm hpe
    simp only [extractFrontmatter, hfm, hpe]

/-- C4 witness: a file without any frontmatter delimiters fails with the
no-frontmatter message. -/
theorem validateMarkdownFile_amended_spec_witness :
    (validateMarkdownFile
        (⟨fun _ => true, fun _ => "plain text only", fun _ => Except.error "bad", fun _ => false,
          fun _ => []⟩ : CVModel Unit)
        "p.md" ⟨fun v => SafeParseResult.ok v⟩).errors =
      some ["No frontmatter found in markdown file"] :=
  ((validateMarkdownFile_amended_spec Unit
      ⟨fun _ => true, fun _ => "plain text only", fun _ => Except.error "bad", fun _ => false,
        fun _ => []⟩
      ⟨fun v => SafeParseResult.ok v⟩ "p.md" rfl
      (fun _v _i _ms h => nomatch h)).1).2 (Or.inl (by decide))

/-! ## C2: validateAllContent -/

/-- Every branch of `validateYamlFile` reports the validated path. -/
theorem validateYamlFile_file {α : Type} (m : CVModel α) (p : String) (s : Schema α) :
    (validateYamlFile m p s).file = p := by
  unfold validateYamlFile
  split
  · rfl
  · split
    · rfl
    · split
      · rfl
      · rfl

/-- Every branch of `validateMarkdownFile` reports the validated path. -/
theorem validateMarkdownFile_file {α : Type} (m : CVModel α) (p : String) (s : Schema α) :
    (validateMarkdownFile m p s).file = p := by
  unfold validateMarkdownFile
  split
  · rfl
  · split
    · rfl
    · split
      · rfl
      · split
        · rfl
        · rfl

/-- The character list of a joined path. -/
theorem joinPath_data (b r : String) :
    (joinPath b r).data = if b.data = [] then r.data else b.data ++ '/' :: r.data := by
  rw [joinPath]
  by_cases hb : b = ""
  · rw [if_pos hb, if_pos (by rw [hb])]
  · have hbd : ¬ b.data = [] := by
      intro h0
      exact hb (congrArg String.mk h0)
    rw [if_neg hb, if_neg hbd, String.data_append, String.data_append, List.append_assoc]
    rfl

/-- A file joined below the products directory never equals a path joined
from the base with a name whose first eleven characters differ from
`src/data/pr`. -/
theorem productPath_ne (basePath name rel : String)
    (_hlen : 11 ≤ rel.data.length)
    (hne : "src/data/products".data.take 11 ≠ rel.data.take 11) :
    joinPath (joinPath basePath "src/data/products") name ≠ joinPath basePath rel := by
  intro h
  have hd := congrArg String.data h
  rw [joinPath_data (joinPath basePath "src/data/products") name,
    joinPath_data basePath rel] at hd
  have hD := joinPath_data basePath "src/data/products"
  by_cases hb : basePath.data = []
  · rw [if_pos hb] at hD
    have hDne : ¬ (joinPath basePath "src/data/products").data = [] := by
      rw [hD]
      decide
    rw [if_neg hDne, if_pos hb, hD] at hd
    have ht := congrArg (List.take 11) hd
    rw [List.take_append_of_le_length (by decide)] at ht
    exact hne ht
  · rw [if_neg hb] at hD
    have hDne : ¬ (joinPath basePath "src/data/products").data = [] := by
      rw [hD]
      simp
    rw [if_neg hDne, if_neg hb, hD, List.append_assoc, List.cons_append] at hd
    have hc := List.append_cancel_left hd
    rw [List.cons.injEq] at hc
    have ht := congrArg (List.take 11) hc.2
    rw [List.take_append_of_le_length (by decide)] at ht
    exact hne ht

/-- A product Markdown file path never coincides with one of the four
fixed YAML data paths. -/
theorem productPath_ne_yamlPath (basePath name p : String)
    (hp : p ∈ yamlDataPaths basePath) :
    joinPath (joinPath basePath "src/data/products") name ≠ p := by
  simp only [yamlDataPaths, List.mem_cons, List.not_mem_nil, or_false] at hp
  rcases hp with h | h | h | h <;>
    (rw [h]; exact productPath_ne basePath name _ (by decide) (by decide))

/-- C2: the report of `validateAllContent` succeeds exactly when its
invalid count is zero; its total counts only the fixed YAML files that
exist plus the product candidates; and a missing fixed YAML file
contributes no `ValidationResult` at all. -/
theorem validateAllContent_spec :
    ∀ (α : Type) (m : CVModel α) (schemas : AllSchemas α) (basePath : String),
      ((validateAllContent m schemas basePath).success = true ↔
        (validateAllContent m schemas basePath).summary.invalid = 0) ∧
      (validateAllContent m schemas basePath).summary.total =
        ((yamlDataPaths basePath).filter m.fexists).length +
          (productCandidateFiles m basePath).length ∧
      (∀ p ∈ yamlDataPaths basePath, m.fexists p = false →
        ∀ res ∈ (validateAllContent m schemas basePath).results, res.file ≠ p) := by
  intro α m schemas basePath
  have hres : (validateAllContent m schemas basePath).results =
      (([(joinPath basePath "src/data/resume.yaml", schemas.resume),
         (joinPath basePath "src/data/testimonials.yaml", schemas.testimonials),
         (joinPath basePath "src/data/repositories.yaml", schemas.repositories),
         (joinPath basePath "src/data/publications.yaml", schemas.publications)].filter
          (fun v => m.fexists v.1)).map (fun v => validateYamlFile m v.1 v.2)) ++
        (productCandidateFiles m basePath).map
          (fun f => validateMarkdownFile m f schemas.product) := rfl
  refine ⟨?_, ?_, ?_⟩
  · have hsuccess : (validateAllContent m schemas basePath).success =
        ((validateAllContent m schemas basePath).summary.invalid == 0) := rfl
    rw [hsuccess]
    exact beq_iff_eq
  · have htotal : (validateAllContent m schemas basePath).summary.total =
        (validateAllContent m schemas basePath).results.length := rfl
    rw [htotal, hres, List.length_append, List.length_map, List.length_map]
    congr 1
    have hmap : yamlDataPaths basePath =
        [(joinPath basePath "src/data/resume.yaml", schemas.resume),
         (joinPath basePath "src/data/testimonials.yaml", schemas.testimonials),
         (joinPath basePath "src/data/repositories.yaml", schemas.repositories),
         (joinPath basePath "src/data/publications.yaml", schemas.publications)].map
          Prod.fst := rfl
    rw [hmap, List.filter_map, List.length_map]
    rfl
  · intro p hp hpf res hres2 heq
    rw [hres] at hres2
    rcases List.mem_append.1 hres2 with hY | hP
    · obtain ⟨v, hv, rfl⟩ := List.mem_map.1 hY
      rw [List.mem_filter] at hv
      rw [validateYamlFile_file] at heq
      rw [heq] at hv
      rw [hpf] at hv
      cases hv.2
    · obtain ⟨f, hf, rfl⟩ := List.mem_map.1 hP
      rw [validateMarkdownFile_file] at heq
      have hf2 : f ∈ getFilesInDirectory m (joinPath basePath "src/data/products")
          [".md", ".mdx"] := List.mem_of_mem_filter hf
      by_cases hd : m.fexists (joinPath basePath "src/data/products") = false
      · rw [getFilesInDirectory, if_pos hd] at hf2
        cases hf2
      · rw [getFilesInDirectory, if_neg hd] at hf2
        obtain ⟨e, _he, rfl⟩ := List.mem_map.1 hf2
        exact productPath_ne_yamlPath basePath e.name p hp heq

/-- C2 witness: a base with only the resume file present yields a report
whose single result is for the resume path and never mentions the missing
testimonials path. -/
theorem validateAllContent_spec_witness :
    (validateYamlFile
        (⟨fun p => p == "b/src/data/resume.yaml", fun _ => "", fun _ => Except.error "e",
          fun _ => false, fun _ => []⟩ : CVModel Unit)
        "b/src/data/resume.yaml" ⟨fun v => SafeParseResult.ok v⟩).file ≠
      "b/src/data/testimonials.yaml" :=
  (validateAllContent_spec Unit
      ⟨fun p => p == "b/src/data/resume.yaml", fun _ => "", fun _ => Except.error "e",
        fun _ => false, fun _ => []⟩
      ⟨⟨fun v => SafeParseResult.ok v⟩, ⟨fun v => SafeParseResult.ok v⟩,
        ⟨fun v => SafeParseResult.ok v⟩, ⟨fun v => SafeParseResult.ok v⟩,
        ⟨fun v => SafeParseResult.ok v⟩⟩ "b").2.2
    "b/src/data/testimonials.yaml" (by decide) (by decide)
    (validateYamlFile
      ⟨fun p => p == "b/src/data/resume.yaml", fun _ => "", fun _ => Except.error "e",
        fun _ => false, fun _ => []⟩
      "b/src/data/resume.yaml" ⟨fun v => SafeParseResult.ok v⟩)
    (by decide)

end Dabozai
